import Mathlib

/-!
Verification of the page-fan-out extraction pipeline
(`src/Python/combiner/lambda_function.py`, `src/Python/page_processor/*.py`).

The Python code is shallowly embedded: pure fragments become Lean
functions over `String` / `List Char` / `Int` / `Rat`; external
collaborators (S3, the ONNX detector runtime, the vision LLM, `re`
searches, `cv2` drawing) are passed in as explicit parameters, so every
claim is proved for all possible collaborator behaviours.
-/

/-! ### Python string primitives

`splitChar sep l` models Python `str.split(sep)` for a one-character
separator: it splits on every occurrence and keeps empty fragments. -/

def splitChar (sep : Char) : List Char → List (List Char)
  | [] => [[]]
  | c :: rest =>
    if c = sep then [] :: splitChar sep rest
    else
      match splitChar sep rest with
      | h :: t => (c :: h) :: t
      | [] => [[c]]

/-- `leadsWith p l` is true iff `p` is an initial segment of `l`
(models Python `str.startswith` on character lists). -/
def leadsWith : List Char → List Char → Bool
  | [], _ => true
  | _ :: _, [] => false
  | p :: ps, c :: cs => p = c && leadsWith ps cs

/-- Index of the last occurrence of `c` in `l` (models Python `str.rfind`
restricted to found/not-found plus the index). -/
def lastIdxOf (c : Char) : List Char → Option Nat
  | [] => none
  | a :: rest =>
    match lastIdxOf c rest with
    | some i => some (i + 1)
    | none => if a = c then some 0 else none

/-- Numeric value of a list of decimal digits. -/
def digitsVal (l : List Char) : Nat :=
  l.foldl (fun acc c => acc * 10 + (c.toNat - 48)) 0

/-- Strip ASCII whitespace from both ends (models Python `str.strip()` on
the inputs that occur here). -/
def trimWs (l : List Char) : List Char :=
  ((l.dropWhile Char.isWhitespace).reverse.dropWhile Char.isWhitespace).reverse

/-- Models Python `int(s)` on underscore-free fragments: optional
surrounding whitespace, an optional sign, then a non-empty run of decimal
digits; everything else raises `ValueError`, modelled as `none`. -/
def pyIntCore : List Char → Option Int
  | [] => none
  | c :: ds =>
    if c = '+' then
      if ds ≠ [] ∧ ds.all Char.isDigit then some (digitsVal ds) else none
    else if c = '-' then
      if ds ≠ [] ∧ ds.all Char.isDigit then some (-(digitsVal ds : Int)) else none
    else if (c :: ds).all Char.isDigit then some (digitsVal (c :: ds))
    else none

/-- `int(...)` after the whitespace strip. -/
def pyInt (l : List Char) : Option Int :=
  pyIntCore (trimWs l)

/-- Models `pathlib.Path(p).name`: the final `/`-separated component
(empty components, as produced by duplicate or trailing slashes, are
dropped, matching pathlib's normalisation on the inputs used here). -/
def pyName (p : List Char) : List Char :=
  ((splitChar '/' p).filter (· ≠ [])).getLastD []

/-- Models `pathlib.Path(p).stem` applied to a name: drop the suffix
starting at the last dot, provided that dot is neither the first nor the
last character (CPython: `0 < i < len(name) - 1`). -/
def stemOfName (name : List Char) : List Char :=
  match lastIdxOf '.' name with
  | some i => if 0 < i ∧ i < name.length - 1 then name.take i else name
  | none => name

/-- Models `pathlib.Path(p).stem`. -/
def pyStem (p : List Char) : List Char :=
  stemOfName (pyName p)

/-! ### combiner/lambda_function.py : extract_page_number_from_path -/

/-- The body of `extract_page_number_from_path` after `Path(...).stem`
has been taken: split the stem on underscores and inspect the trailing
fragments; a `ValueError` raised by `int(...)` is caught and yields
`None`, modelled by `pyInt` returning `none`. -/
def extractFromStem (stem : List Char) : Option Int :=
  let parts := splitChar '_' stem
  let n := parts.length
  if 3 ≤ n ∧ parts.getD (n - 2) [] = "page".data then
    pyInt (parts.getD (n - 1) [])
  else if 4 ≤ n ∧ parts.getD (n - 3) [] = "page".data ∧ parts.getD (n - 1) [] = "result".data then
    pyInt (parts.getD (n - 2) [])
  else
    none

/-- `extract_page_number_from_path` from combiner/lambda_function.py. -/
def extract_page_number_from_path (file_path_str : String) : Option Int :=
  extractFromStem (pyStem file_path_str.data)

/-! ### page_processor utils : description-token stripping and fence cleanup -/

/-- Characters of the literal `[START DESCRIPTION]`. -/
def startTok : List Char := "[START DESCRIPTION]".data

/-- Characters of the literal `[END DESCRIPTION]`. -/
def endTok : List Char := "[END DESCRIPTION]".data

/-- Models `re.sub(r'\[START DESCRIPTION\]|\[END DESCRIPTION\]', '', text)`
from `_clean_description_tokens`: scan left to right, removing each
non-overlapping occurrence of either literal (the alternation is tried in
order at every position, exactly as the regex engine does).  The fuel
argument only bounds the recursion; each step consumes at least one
character, so `l.length` steps always suffice. -/
def stripDescToksF : Nat → List Char → List Char
  | 0, l => l
  | _ + 1, [] => []
  | f + 1, c :: rest =>
    if leadsWith startTok (c :: rest) then stripDescToksF f ((c :: rest).drop startTok.length)
    else if leadsWith endTok (c :: rest) then stripDescToksF f ((c :: rest).drop endTok.length)
    else c :: stripDescToksF f rest

/-- The token-removal scan at full fuel. -/
def stripDescToks (l : List Char) : List Char :=
  stripDescToksF l.length l

/-- The description-token removal on one Python string (the regex branch
of `_clean_description_tokens`; the full function, including its
JSON-format recursion, is `clean_description_tokens` below). -/
def stripDescTokensStr (text : String) : String :=
  ⟨stripDescToks text.data⟩

/-- Python `str.strip()` at the string level (ASCII whitespace). -/
def trimStr (s : String) : String := ⟨trimWs s.data⟩

/-- `leadsWith` on the reversed lists: models `str.endswith`. -/
def trailsWith (p l : List Char) : Bool := leadsWith p.reverse l.reverse

/-- Python `str.lower()` (the format names handled here are ASCII). -/
def lowerStr (s : String) : String := ⟨s.data.map Char.toLower⟩

/-- `cleanup_gemini_response` from page_processor/utils.py: strip
whitespace, then remove a leading format-specific or generic triple
backtick fence together with a matching trailing fence. -/
def cleanup_gemini_response (text : String) (output_format : String) : String :=
  let td := trimWs text.data
  let fenceFor : Option (List Char) :=
    if output_format = "json" then some "```json".data
    else if output_format = "markdown" then some "```markdown".data
    else if output_format = "html" then some "```html".data
    else none
  let dropFence : List Char → List Char → List Char := fun fence t =>
    let t := trimWs (t.drop fence.length)
    if trailsWith "```".data t then trimWs (t.take (t.length - 3)) else t
  match fenceFor with
  | some fence =>
    if leadsWith fence td then ⟨dropFence fence td⟩
    else if leadsWith "```".data td then ⟨dropFence "```".data td⟩
    else ⟨td⟩
  | none =>
    if leadsWith "```".data td then ⟨dropFence "```".data td⟩
    else ⟨td⟩

/-! ### Python JSON values, as the page processor manipulates them

`json.loads` of an LLM response can yield any JSON value, and the page
processor inspects its structure (`_clean_description_tokens` recurses
through dicts and lists, `_extract_image_descriptions` walks
`page_content`), so this side of the pipeline needs a full value model.
`json.loads` itself is kept abstract: the functions below take the parse
outcome (`Option PyJson`, `none` for `json.JSONDecodeError`) as an
explicit argument, so every theorem holds for all parse outcomes. -/

inductive PyJson where
  | jnull : PyJson
  | jbool : Bool → PyJson
  | jnum : Int → PyJson
  | jstr : String → PyJson
  | jarr : List PyJson → PyJson
  | jdict : List (String × PyJson) → PyJson

/-- Python truthiness of a JSON-derived value (numbers are modelled as
integers; a float's truthiness is likewise `x != 0`). -/
def PyJson.jtruthy : PyJson → Bool
  | .jnull => false
  | .jbool b => b
  | .jnum z => z ≠ 0
  | .jstr s => s ≠ ""
  | .jarr xs => !xs.isEmpty
  | .jdict fs => !fs.isEmpty

/-- The integer a hashable JSON value is Python-`==` to, if any: an
integer is itself, and `True`/`False` equal `1`/`0` (Python bools are
ints, so `True in {1: ...}` holds and `d[True]` is `d[1]`).  Strings,
null and containers never equal an integer key. -/
def toIntKey : PyJson → Option Int
  | .jnum z => some z
  | .jbool b => some (if b then 1 else 0)
  | _ => none

/-- Field lookup in a parsed JSON object.  `json.loads` keeps the last
of duplicate keys, so the fold mirrors dict insertion order. -/
def lookupField (fs : List (String × PyJson)) (k : String) : Option PyJson :=
  fs.foldl (fun acc p => if p.1 = k then some p.2 else acc) none

/-- Python `sub in s` substring test. -/
def hasSub (pat : List Char) : List Char → Bool
  | [] => leadsWith pat []
  | c :: rest => leadsWith pat (c :: rest) || hasSub pat rest

/-- The cleaning `_clean_description_tokens` applies to each member of a
dict or list: direct string values are regex-stripped, nested dicts and
lists are recursed into, and other scalars are left unchanged. -/
def cleanMember : PyJson → PyJson
  | .jstr s => .jstr (stripDescTokensStr s)
  | .jarr xs => .jarr (xs.attach.map (fun x => cleanMember x.1))
  | .jdict fs => .jdict (fs.attach.map (fun p => (p.1.1, cleanMember p.1.2)))
  | .jnull => .jnull
  | .jbool b => .jbool b
  | .jnum z => .jnum z
decreasing_by
  · have := List.sizeOf_lt_of_mem x.2
    simp only [PyJson.jarr.sizeOf_spec]
    omega
  · have h1 := List.sizeOf_lt_of_mem p.2
    have h2 : sizeOf p.1.2 < sizeOf p.1 := by
      obtain ⟨⟨k, v⟩, hmem⟩ := p
      simp
    simp only [PyJson.jdict.sizeOf_spec]
    omega

/-- `_clean_description_tokens` applied to a successfully parsed value:
dicts and lists have their members cleaned; every other value —
including a top-level string, which falls through both `isinstance`
tests — is returned unchanged. -/
def topClean : PyJson → PyJson
  | .jarr xs => .jarr (xs.map cleanMember)
  | .jdict fs => .jdict (fs.map (fun p => (p.1, cleanMember p.2)))
  | v => v

/-- A Python value held by the `extracted_output` / `grounded_output`
variables: either a `str`, or a non-string object materialised from
JSON (`vjson` is never a `jstr`: a parsed JSON string materialises back
to `vstr`). -/
inductive PyVal where
  | vstr : String → PyVal
  | vjson : PyJson → PyVal

/-- Materialise a parsed JSON value as a Python value. -/
def pyJsonToVal : PyJson → PyVal
  | .jstr s => .vstr s
  | j => .vjson j

/-- Python truthiness of a `PyVal`. -/
def PyVal.vtruthy : PyVal → Bool
  | .vstr s => s ≠ ""
  | .vjson j => j.jtruthy

/-- `_clean_description_tokens` from page_processor/lambda_function.py,
in full.  For the `"json"` format a string input is parsed (`jparse`
models `json.loads`; `none` is a `JSONDecodeError`, which the source
catches by regex-stripping the string instead), and a container result
has its members cleaned; for every other format only strings are
regex-stripped, other values pass through unchanged. -/
def clean_description_tokens (output_format : String)
    (jparse : String → Option PyJson) : PyVal → PyVal
  | .vstr s =>
    if output_format = "json" then
      match jparse s with
      | some j => pyJsonToVal (topClean j)
      | none => .vstr (stripDescTokensStr s)
    else .vstr (stripDescTokensStr s)
  | .vjson j =>
    if output_format = "json" then pyJsonToVal (topClean j)
    else .vjson j

/-! ### A small model of JSON values as the combiner observes them

The combiner only ever distinguishes: `null`, strings (empty or not) and
"everything else" (dicts/lists/numbers/bools), of which it only uses the
Python truthiness and the `json.dumps` serialisation.  `JVal.nonstr t d`
stands for any non-string JSON value with truthiness `t` and
pretty-printed serialisation `d`. -/

inductive JVal where
  | null : JVal
  | str : String → JVal
  | nonstr : Bool → String → JVal
deriving DecidableEq, Repr

/-- Python truthiness of a `JVal`. -/
def JVal.truthy : JVal → Bool
  | .null => false
  | .str s => s ≠ ""
  | .nonstr t _ => t

/-! ### combiner/lambda_function.py : the page-result load loop -/

/-- What the combiner sees after `json.loads` succeeds on one page-result
object and the fields it subsequently reads.  `page_number` is `none`
when the key is absent or null (the source then backfills it; non-integer
page numbers would make the later Python sort raise, so well-typed page
results carry integers).  `has_grounded` / `has_format` model the
`'grounded_output' in page_data` / `'output_format' in page_data`
membership tests; `output_format` is `some s` exactly when the stored
value is the string `s` (a present but non-string value makes the
`.lower()` call in the loop raise `AttributeError`, which the loop's
`except` turns into a load error). -/
structure PageDict where
  page_number : Option Int
  has_grounded : Bool
  grounded_output : JVal
  has_format : Bool
  output_format : Option String
  extracted_output : JVal
deriving DecidableEq, Repr

/-- Outcome of `get_object` + `.read().decode()` + `json.loads` for one
page-result reference: a raised exception (with its message), a parsed
non-dict value, or a parsed dict. -/
inductive FetchOutcome where
  | fetchErr : String → FetchOutcome
  | notDict : FetchOutcome
  | dict : PageDict → FetchOutcome
deriving DecidableEq, Repr

/-- One element of `s3_page_result_uris` together with what the Blob
Store collaborator returns for it. -/
structure RefInput where
  uri : String
  outcome : FetchOutcome
deriving DecidableEq, Repr

/-- One record of `load_errors`. -/
structure ErrRec where
  s3_uri : String
  reason : String
  page_num_estimated : Option Int
deriving DecidableEq, Repr

/-- One element of `combined_pages_data` (the dict built by
`validate_and_extract_page_data`, after the page-number backfill; the
`page_number` field is always set once the loop iteration succeeds).
The two pass-through S3-uri fields and the copied image-description list
are omitted: the combiner never reads them. -/
structure XPage where
  page_number : Int
  output_format : String
  grounded_output : JVal
  extracted_output : JVal
deriving DecidableEq, Repr

/-- Removes every occurrence of the pattern `pat` from a string, scanning
left to right (models Python `str.replace(pat, '')`, used to turn an
`s3://bucket/key` URI into a bare key). -/
def removeAllF (pat : List Char) : Nat → List Char → List Char
  | 0, l => l
  | _ + 1, [] => []
  | f + 1, c :: rest =>
    if pat ≠ [] ∧ leadsWith pat (c :: rest) = true then
      removeAllF pat f ((c :: rest).drop pat.length)
    else
      c :: removeAllF pat f rest

/-- The occurrence-removal scan at full fuel (each step consumes at
least one character, so `l.length` steps always suffice). -/
def removeAll (pat : List Char) (l : List Char) : List Char :=
  removeAllF pat l.length l

/-- `result_uri.replace(f's3://{BUCKET_NAME}/', '')` from the loop head. -/
def uriToKey (bucket : String) (uri : String) : String :=
  ⟨removeAll ("s3://" ++ bucket ++ "/").data uri.data⟩

/-- The outcome of one loop iteration, independent of the loop state:
either a load-error record, or the validated page fields plus the
best-effort page-number estimate (the sequential-counter backfill, which
does depend on the loop state, is applied by `processOne`). -/
inductive StepRes where
  | fail : ErrRec → StepRes
  | ok : Option Int → Option Int → String → JVal → JVal → StepRes
deriving DecidableEq, Repr

/-- Builds the `load_errors` entry: the reason string is
`f"Failed to load/process result from {result_uri}: {e}"`. -/
def mkErr (uri msg : String) (est : Option Int) : ErrRec :=
  ⟨uri, "Failed to load/process result from " ++ uri ++ ": " ++ msg, est⟩

/-- One iteration of the combiner's download/validate loop, up to (but
not including) the state update: compute the page-number estimate from
the reference's key, then either propagate the fetch/parse exception,
fail validation (`validate_and_extract_page_data`), fail the
`.lower()` call on a non-string `output_format`, or succeed. -/
def classify (bucket : String) (inp : RefInput) : StepRes :=
  let est := extract_page_number_from_path (uriToKey bucket inp.uri)
  match inp.outcome with
  | .fetchErr msg => .fail (mkErr inp.uri msg est)
  | .notDict => .fail (mkErr inp.uri "Data is not a dictionary" est)
  | .dict d =>
    if d.has_grounded = false then .fail (mkErr inp.uri "Missing 'grounded_output' key" est)
    else if d.has_format = false then .fail (mkErr inp.uri "Missing 'output_format' key" est)
    else
      match d.output_format with
      | none => .fail (mkErr inp.uri "'NoneType' object has no attribute 'lower'" est)
      | some fmt => .ok d.page_number est (lowerStr fmt) d.grounded_output d.extracted_output

/-- The loop state: `combined_pages_data`, `load_errors`,
`successful_page_count` and the `encountered_formats` set (kept as an
insertion-ordered duplicate-free list). -/
structure LoopState where
  pages : List XPage
  errors : List ErrRec
  count : Nat
  formats : List String
deriving DecidableEq, Repr

/-- Set insertion for `encountered_formats.add(page_format)`. -/
def insertFmt (f : String) (l : List String) : List String :=
  if f ∈ l then l else l ++ [f]

/-- One full iteration of the combiner loop, including the page-number
backfill (`page_number` from the object, else the path-derived estimate,
else `successful_page_count + 1`) and the state update. -/
def processOne (bucket : String) (st : LoopState) (inp : RefInput) : LoopState :=
  match classify bucket inp with
  | .fail e => { st with errors := st.errors ++ [e] }
  | .ok pn est fmt g x =>
    let n : Int :=
      match pn with
      | some n => n
      | none =>
        match est with
        | some e => e
        | none => (st.count : Int) + 1
    { st with
        pages := st.pages ++ [⟨n, fmt, g, x⟩],
        count := st.count + 1,
        formats := insertFmt fmt st.formats }

/-- The whole download/validate loop over `s3_page_result_uris`. -/
def combineLoop (bucket : String) (l : List RefInput) : LoopState :=
  l.foldl (processOne bucket) ⟨[], [], 0, []⟩

/-! ### combiner/lambda_function.py : sorting, status, aggregate assembly -/

/-- `combined_pages_data.sort(key=lambda x: x.get('page_number', float('inf')))`.
After the loop every page carries an integer page number (the backfill in
`processOne` guarantees it), so the key is just that integer; Python's
Timsort and `List.insertionSort` are both stable, so they agree. -/
def sortPages (ps : List XPage) : List XPage :=
  ps.insertionSort (fun a b => a.page_number ≤ b.page_number)

/-- The overall `processing_status` computation (combiner lines 247-251):
start from `Completed`, switch to `CompletedWithErrors` when any load
errors were recorded, and override with `Failed` when the input list was
non-empty but nothing loaded. -/
def processing_status (total success errs : Nat) : String :=
  let s := "Completed"
  let s := if errs ≠ 0 then "CompletedWithErrors" else s
  if success = 0 ∧ 0 < total then "Failed" else s

/-- The `aggregated_json_data` document: the metadata block, the sorted
page list and the load-error list (run identifiers and source-uri
metadata are opaque pass-through strings and are omitted). -/
structure AggJson where
  total_pages_input : Nat
  successful_pages_loaded : Nat
  page_load_errors : Nat
  pstatus : String
  formats_in_page_results : List String
  pages : List XPage
  errors : List ErrRec
deriving DecidableEq, Repr

/-- Lexicographic string order used to model Python `sorted(...)` on the
encountered-formats set. -/
def strLe (a b : String) : Prop := ¬ b < a

instance : DecidableRel strLe := fun a b => by unfold strLe; infer_instance

/-- Everything the combiner computes from `s3_page_result_uris` before
the upload phase: run the load loop, sort the pages, compute the overall
status and assemble the aggregate document. -/
def aggregate (bucket : String) (l : List RefInput) : AggJson :=
  let st := combineLoop bucket l
  { total_pages_input := l.length
    successful_pages_loaded := st.count
    page_load_errors := st.errors.length
    pstatus := processing_status l.length st.count st.errors.length
    formats_in_page_results := st.formats.insertionSort strLe
    pages := sortPages st.pages
    errors := st.errors }

/-! ### combiner/lambda_function.py : generate_format_from_json -/

/-- The string contributed by one page to the rendered artifact:
a falsy `grounded_output` (null, empty string, empty dict/list) is
skipped with a warning; a string is used as-is; any other JSON value is
serialised with `json.dumps(..., indent=2)`. -/
def renderPart (p : XPage) : Option String :=
  match p.grounded_output with
  | .null => none
  | .str s => if s = "" then none else some s
  | .nonstr t d => if t then some d else none

/-- The `output_parts` accumulation over the (re-)sorted page list. -/
def renderParts (ps : List XPage) : List String :=
  ps.filterMap renderPart

/-- The fixed HTML shell pieces from the source. -/
def html_head : String :=
  "<!DOCTYPE html>\n<html>\n<head>\n<meta charset=\"UTF-8\">\n<title>Document</title>\n</head>\n<body>\n"

/-- Closing part of the HTML shell. -/
def html_foot : String := "\n</body>\n</html>"

/-- `f"<div class=\"page\" id=\"page-{i+1}\">\n{part}\n</div>"` for the
0-based position `i` of `part` in `output_parts`. -/
def pageDiv (i : Nat) (part : String) : String :=
  "<div class=\"page\" id=\"page-" ++ toString (i + 1) ++ "\">\n" ++ part ++ "\n</div>"

/-- The numbered page divs, in output order. -/
def pageDivs (parts : List String) : List String :=
  parts.enum.map (fun p => pageDiv p.1 p.2)

/-- `generate_format_from_json` from combiner/lambda_function.py: reject
unsupported formats, return `None` for an empty page list, re-sort the
pages, collect the truthy grounded outputs and join them according to
the requested format.  (The `output_format_lower` variable in the source
equals `output_format` because the top guard already requires one of the
three lowercase names.) -/
def generate_format_from_json (agg : AggJson) (output_format : String) : Option String :=
  if ¬ (output_format = "markdown" ∨ output_format = "html" ∨ output_format = "txt") then none
  else if agg.pages = [] then none
  else
    let pages := sortPages agg.pages
    let parts := renderParts pages
    if output_format = "markdown" then
      some (String.intercalate "\n\n---\n\n" parts)
    else if output_format = "html" then
      some (html_head ++ String.intercalate "\n" (pageDivs parts) ++ html_foot)
    else
      some (String.intercalate "\n\n" parts)

/-! ### combiner/lambda_function.py : lambda_handler -/

/-- The terminal response of the combiner: final status, the
format-to-uri map of uploaded artifacts, the summary counters, and the
content of the aggregate JSON artifact (`none` when the empty-input
early return fires and no artifact is assembled). -/
structure CombineResult where
  status : String
  final_outputs : List (String × String)
  total_pages_input : Nat
  successful_pages_loaded : Nat
  load_error_count : Nat
  aggregated : Option AggJson
deriving DecidableEq, Repr

/-- `lambda_handler` of the combiner, from the point where the event
fields have been read.  `uploadJsonOk` / `uploadFmtOk` model whether the
two `put_object` calls to the Blob Store succeed (their failures are
caught in the source; only the JSON one sets `save_error_occurred`).
`outPre` is `FINAL_OUTPUT_PREFIX`, `run_uuid` and `base` the
corresponding event fields. -/
def lambda_handler (bucket outPre run_uuid base : String) (l : List RefInput)
    (requested_output_format : String) (uploadJsonOk uploadFmtOk : Bool) : CombineResult :=
  if l = [] then
    { status := "Success", final_outputs := [], total_pages_input := 0,
      successful_pages_loaded := 0, load_error_count := 0, aggregated := none }
  else
    let agg := aggregate bucket l
    let runPre := outPre ++ "/" ++ run_uuid ++ "/"
    let save_error := uploadJsonOk = false
    let outs0 :=
      if uploadJsonOk then
        [("json", "s3://" ++ bucket ++ "/" ++ runPre ++ base ++ "_aggregated_results.json")]
      else []
    let fmtL := lowerStr requested_output_format
    let outs1 :=
      if fmtL = "markdown" ∨ fmtL = "html" ∨ fmtL = "txt" then
        match generate_format_from_json agg fmtL with
        | some content =>
          if content ≠ "" ∧ uploadFmtOk then
            let ext := if fmtL = "markdown" then ".md" else if fmtL = "html" then ".html" else ".txt"
            [(fmtL, "s3://" ++ bucket ++ "/" ++ runPre ++ base ++ "_combined" ++ ext)]
          else []
        | none => []
      else []
    let final_status :=
      if agg.pstatus = "Failed" ∨ save_error then "Failure"
      else if agg.pstatus = "CompletedWithErrors" then "SuccessWithErrors"
      else "Success"
    { status := final_status
      final_outputs := outs0 ++ outs1
      total_pages_input := l.length
      successful_pages_loaded := agg.successful_pages_loaded
      load_error_count := agg.page_load_errors
      aggregated := some agg }

/-! ### page_processor/yolo_inference.py -/

/-- A bounding box `[x1, y1, x2, y2]`; coordinates are exact rationals
standing in for the source's floats (only comparisons and the
scale/clip arithmetic below are ever performed on them). -/
abbrev Box := List Rat

/-- One raw detection row `[x1, y1, x2, y2, confidence, class_id]` of the
model output. -/
structure RawDet where
  box : Box
  conf : Rat
  cls : Int
deriving DecidableEq, Repr

/-- The combined filter mask: `confidences >= conf_thres`, and when a
target class is given also `class_ids == target_class_id`. -/
def detKeep (conf_thres : Rat) (target_class_id : Option Int) (d : RawDet) : Bool :=
  decide (conf_thres ≤ d.conf) &&
    match target_class_id with
    | some t => decide (d.cls = t)
    | none => true

/-- `np.clip` on one coordinate. -/
def clipR (v lo hi : Rat) : Rat := max lo (min v hi)

/-- Rescaling a `[x1, y1, x2, y2]` box from detector space back to image
pixel space followed by clipping to the image bounds. -/
def rescaleBox (sw sh w h : Rat) : Box → Box
  | [x1, y1, x2, y2] => [clipR (x1 * sw) 0 w, clipR (y1 * sh) 0 h, clipR (x2 * sw) 0 w, clipR (y2 * sh) 0 h]
  | b => b

/-- `draw_indexed_detections`: draws the boxes and their 1-based indices
on a copy of the image (the drawing itself is `cv2` work, abstracted as
`drawFn`) and returns the annotated copy plus the index list `[1..n]`. -/
def draw_indexed_detections {Image : Type} (drawFn : Image → List Box → Image)
    (image : Image) (boxes : List Box) : Image × List Int :=
  (drawFn image boxes, (List.range boxes.length).map (fun i => (i : Int) + 1))

/-- The pure core of `run_yolo_inference`, given the rows the ONNX
session produced (model loading, preprocessing and inference are
collaborator work; their failures return `(None, None, None)` before
this logic runs).  Filters by confidence and target class; when nothing
passes, returns the unmodified image with empty box and index lists;
otherwise rescales and clips the surviving boxes, annotates, and
returns them with 1-based indices. -/
def run_yolo_inference {Image : Type} (drawFn : Image → List Box → Image) (image : Image)
    (dets : List RawDet) (conf_thres : Rat) (target_class_id : Option Int)
    (img_width img_height input_width input_height : Rat) : Image × List Box × List Int :=
  let filtered := dets.filter (detKeep conf_thres target_class_id)
  if filtered = [] then (image, [], [])
  else
    let sw := img_width / input_width
    let sh := img_height / input_height
    let boxes_list := filtered.map (fun d => rescaleBox sw sh img_width img_height d.box)
    let ann := draw_indexed_detections drawFn image boxes_list
    (ann.1, boxes_list, ann.2)

/-! ### page_processor/utils.py : _extract_image_descriptions -/

/-- One recovered image description.  In the JSON strategy the stored
`image_id` is the raw value of the item's `image_id` field; only values
Python-equal to an integer key ever pass the `in index_to_box` test, so
the id is materialised as that integer (Python `True`/`False` are the
integers `1`/`0`), and `description` is the raw JSON value of the
item's `description` field (the regex strategy stores a string). -/
structure ImageDescription where
  image_id : Int
  description : PyJson
  coordinates : Box
  cropped_image_path : Option String

/-- Lookup in the dict `{idx: box for idx, box in zip(indices, boxes)}`:
built by insertion, so on duplicate indices the later binding wins —
modelled by a left fold over the zipped pairs. -/
def dictGet (m : List (Int × Box)) (k : Int) : Option Box :=
  m.foldl (fun acc p => if p.1 = k then some p.2 else acc) none

/-- One dict item of a `page_content` array under the JSON strategy: it
contributes a description when `item.get("type") == "image_description"`
and its `image_id` is truthy and a key of the index-to-box dict.  A
truthy list or dict id is unhashable, so `image_id in index_to_box`
raises `TypeError` — uncaught (the strategy's `except` covers only
`JSONDecodeError` and `KeyError`), modelled as `.error ()`; a hashable
id is in the dict exactly when it is Python-equal to one of the integer
keys (`toIntKey`). -/
def itemDesc (m : List (Int × Box)) (crops : Int → Option String)
    (fs : List (String × PyJson)) : Except Unit (Option ImageDescription) :=
  match lookupField fs "type" with
  | some (.jstr ty) =>
    if ty = "image_description" then
      match lookupField fs "image_id" with
      | none => .ok none
      | some idv =>
        if idv.jtruthy then
          match idv with
          | .jarr _ => .error ()
          | .jdict _ => .error ()
          | _ =>
            match toIntKey idv with
            | some k =>
              match dictGet m k with
              | some box =>
                .ok (some ⟨k, (lookupField fs "description").getD (.jstr ""), box, crops k⟩)
              | none => .ok none
            | none => .ok none
        else .ok none
    else .ok none
  | _ => .ok none

/-- The `for item in data["page_content"]` loop: each dict item may
contribute a description; a non-dict item raises `AttributeError` at
`item.get` — uncaught, so it discards the whole call. -/
def itemsWalk (m : List (Int × Box)) (crops : Int → Option String) :
    List PyJson → Except Unit (List ImageDescription)
  | [] => .ok []
  | .jdict fs :: rest =>
    match itemDesc m crops fs with
    | .error e => .error e
    | .ok od =>
      match itemsWalk m crops rest with
      | .error e => .error e
      | .ok t => .ok (od.toList ++ t)
  | _ :: _ => .error ()

/-- The JSON-first strategy of `_extract_image_descriptions`, as a
function of the `json.loads` outcome for the LLM output (`none` =
`JSONDecodeError`, which is caught and falls through to the regex
strategy).  The uncaught raise paths of the source are preserved:
`"page_content" in data` raises `TypeError` on a non-container; on a
string it is a substring test and `data["page_content"]` then raises on
a hit; on a list it is an elementwise `==` test and indexing with a
string raises on a hit; on a dict it is key membership, and the value
is then iterated — an empty string/dict iterates nothing, a non-empty
one yields non-dict members (characters/keys) which raise at
`item.get`, and scalars are not iterable and raise.  `pcValueWalk` is
the iteration of the `page_content` value. -/
def pcValueWalk (m : List (Int × Box)) (crops : Int → Option String) :
    PyJson → Except Unit (List ImageDescription)
  | .jarr items => itemsWalk m crops items
  | .jstr s => if s = "" then .ok [] else .error ()
  | .jdict fs2 => if fs2.isEmpty then .ok [] else .error ()
  | _ => .error ()

/-- The JSON strategy on a successfully parsed value. -/
def jsonStrategyVal (m : List (Int × Box)) (crops : Int → Option String) :
    PyJson → Except Unit (List ImageDescription)
  | .jdict fs =>
    match lookupField fs "page_content" with
    | none => .ok []
    | some v => pcValueWalk m crops v
  | .jarr xs =>
    if xs.any (fun x => match x with | .jstr s => s = "page_content" | _ => false) then
      .error ()
    else .ok []
  | .jstr s =>
    if hasSub "page_content".data s.data then .error () else .ok []
  | _ => .error ()

/-- The whole strategy as a function of the `json.loads` outcome:
a `JSONDecodeError` is caught and falls through to the regex strategy. -/
def jsonStrategy (data : Option PyJson) (m : List (Int × Box))
    (crops : Int → Option String) : Except Unit (List ImageDescription) :=
  match data with
  | none => .ok []
  | some j => jsonStrategyVal m crops j

/-- The contribution of one detected index under the regex-fallback
strategy; `found idx` is the (stripped) capture group when `re.search`
matches the format-specific pattern for index `idx`, `none` otherwise —
the regex engine is a collaborator here.  This strategy cannot raise. -/
def textItemDesc (m : List (Int × Box)) (crops found : Int → Option String)
    (idx : Int) : Option ImageDescription :=
  match found idx with
  | some desc => some ⟨idx, .jstr desc, (dictGet m idx).getD [], crops idx⟩
  | none => none

/-- The regex-fallback strategy: one search per detected index. -/
def descsFromText (indices : List Int) (m : List (Int × Box))
    (crops : Int → Option String) (found : Int → Option String) : List ImageDescription :=
  indices.filterMap (textItemDesc m crops found)

/-- `_extract_image_descriptions` from page_processor/utils.py.  `jdata`
is the `json.loads` outcome of the LLM output when
`output_format == "json"` (unused otherwise).  `.error ()` is an
uncaught `TypeError`/`AttributeError` escaping the function into the
page-level handler; otherwise, when the JSON strategy is inapplicable
or yields nothing, the per-index regex fallback runs. -/
def extract_image_descriptions (jdata : Option PyJson) (output_format : String)
    (boxes : List Box) (indices : List Int) (crops : Int → Option String)
    (found : Int → Option String) : Except Unit (List ImageDescription) :=
  let m := indices.zip boxes
  if output_format = "json" then
    match jsonStrategy jdata m crops with
    | .error e => .error e
    | .ok jsonDescs =>
      if jsonDescs.isEmpty then .ok (descsFromText indices m crops found)
      else .ok jsonDescs
  else .ok (descsFromText indices m crops found)

/-! ### page_processor/lambda_function.py : the grounding step (2e) and
the persisted fields -/

/-- Step 2e of `lambda_handler`: when raw text is available, call the
VisionLLM with the grounding prompt (`groundResp` is its return value:
`none` for a failed call, `some ""` for an empty one — both falsy),
falling back to the extracted output unchanged; otherwise skip the call
and only run `_clean_description_tokens` on the already-cleaned
extracted output.  `extracted_output` is a string at this point (it is
the fence-cleaned LLM response). -/
def computeGrounded (output_format : String) (jparse : String → Option PyJson)
    (raw_text extracted_output : String) (groundResp : Option String) : PyVal :=
  if raw_text ≠ "" then
    match groundResp with
    | none => .vstr extracted_output
    | some g =>
      if g = "" then .vstr extracted_output
      else
        clean_description_tokens output_format jparse
          (.vstr (cleanup_gemini_response g output_format))
  else
    clean_description_tokens output_format jparse (.vstr extracted_output)

/-- `_format_output_based_on_type` from page_processor/lambda_function.py.
For `"json"`: a dict is returned as-is; a string is parsed, keeping the
string on `JSONDecodeError`; any other object reaches
`json.loads(output)` which raises an uncaught `TypeError` — the call
happens during result building, outside the page-level `try`, so this is
a crash, modelled as `none`.  For the other formats the function is the
identity. -/
def format_output_based_on_type (output_format : String)
    (jparse : String → Option PyJson) : PyVal → Option PyVal
  | .vjson (.jdict fs) => some (.vjson (.jdict fs))
  | .vstr s =>
    if output_format = "json" then
      match jparse s with
      | some j => some (pyJsonToVal j)
      | none => some (.vstr s)
    else some (.vstr s)
  | .vjson j => if output_format = "json" then none else some (.vjson j)

/-- The persisted `grounded_output` field of the page-result JSON:
`_format_output_based_on_type(grounded_output, fmt) if grounded_output
else None`.  The outer `Option` is the result-building step itself
(`none` = the uncaught `TypeError` crash above); the inner `Option` is
the stored field (`none` = JSON null). -/
def persistedGrounded (output_format : String) (jparse : String → Option PyJson)
    (grounded : PyVal) : Option (Option PyVal) :=
  if grounded.vtruthy then (format_output_based_on_type output_format jparse grounded).map some
  else some none

/-- The persisted `extracted_output` field:
`_format_output_based_on_type(extracted_output, fmt)` with no
truthiness guard (the extracted output is a string here, so it cannot
crash). -/
def persistedExtracted (output_format : String) (jparse : String → Option PyJson)
    (extracted : String) : Option PyVal :=
  format_output_based_on_type output_format jparse (.vstr extracted)

/-! ### Loop invariants for the combiner's download/validate loop -/

/-- The error record an input contributes, if its iteration fails. -/
def errOf (bucket : String) (inp : RefInput) : Option ErrRec :=
  match classify bucket inp with
  | .fail e => some e
  | .ok _ _ _ _ _ => none

/-- Whether an input's iteration succeeds. -/
def isOk (bucket : String) (inp : RefInput) : Bool :=
  match classify bucket inp with
  | .fail _ => false
  | .ok _ _ _ _ _ => true

theorem loop_inv (bucket : String) (l : List RefInput) (st : LoopState) :
    (l.foldl (processOne bucket) st).pages.length
        = st.pages.length + (l.filter (isOk bucket)).length ∧
      (l.foldl (processOne bucket) st).count
        = st.count + (l.filter (isOk bucket)).length ∧
      (l.foldl (processOne bucket) st).errors
        = st.errors ++ l.filterMap (errOf bucket) := by
  induction l generalizing st with
  | nil => simp
  | cons x l ih =>
    simp only [List.foldl_cons, List.filter_cons, List.filterMap_cons]
    cases h : classify bucket x with
    | fail e =>
      have hOk : isOk bucket x = false := by simp [isOk, h]
      have hErr : errOf bucket x = some e := by simp [errOf, h]
      have hstep : processOne bucket st x = { st with errors := st.errors ++ [e] } := by
        simp [processOne, h]
      rcases ih (processOne bucket st x) with ⟨h1, h2, h3⟩
      refine ⟨?_, ?_, ?_⟩
      · simpa [hstep, hOk] using h1
      · simpa [hstep, hOk] using h2
      · simp [hstep, hOk, hErr] at h3 ⊢
        simp [h3]
    | ok pn est fmt g xo =>
      have hOk : isOk bucket x = true := by simp [isOk, h]
      have hErr : errOf bucket x = none := by simp [errOf, h]
      rcases ih (processOne bucket st x) with ⟨h1, h2, h3⟩
      have hpages : (processOne bucket st x).pages.length = st.pages.length + 1 := by
        simp [processOne, h]
      have hcount : (processOne bucket st x).count = st.count + 1 := by
        simp [processOne, h]
      have herrs : (processOne bucket st x).errors = st.errors := by
        simp [processOne, h]
      refine ⟨?_, ?_, ?_⟩
      · rw [h1, hpages, hOk]
        simp
        omega
      · rw [h2, hcount, hOk]
        simp
        omega
      · rw [h3, herrs, hErr]

theorem filterMap_errOf_length (bucket : String) (l : List RefInput) :
    (l.filterMap (errOf bucket)).length + (l.filter (isOk bucket)).length = l.length := by
  induction l with
  | nil => simp
  | cons x l ih =>
    simp only [List.filterMap_cons, List.filter_cons]
    cases h : classify bucket x with
    | fail e => simp [errOf, isOk, h, ih]; omega
    | ok pn est fmt g xo => simp [errOf, isOk, h, ih]; omega

/-- C1. Every page-result reference is accounted for exactly once: the
number of successfully loaded pages plus the number of load-error
records equals the number of input references, the running
`successful_page_count` agrees with the number of collected pages, and
(the loop being a total fold) a failure on one reference leaves the
processing of all later references unchanged — the state after
`l1 ++ l2` is the state after `l1` folded through `l2`, whatever errors
`l1` produced. -/
theorem combiner_load_partition (bucket : String) (l l1 l2 : List RefInput) :
    (combineLoop bucket l).pages.length + (combineLoop bucket l).errors.length = l.length ∧
      (combineLoop bucket l).count = (combineLoop bucket l).pages.length ∧
      combineLoop bucket (l1 ++ l2)
        = l2.foldl (processOne bucket) (combineLoop bucket l1) := by
  rcases loop_inv bucket l ⟨[], [], 0, []⟩ with ⟨h1, h2, h3⟩
  refine ⟨?_, ?_, ?_⟩
  · have := filterMap_errOf_length bucket l
    simp [combineLoop] at h1 h3 ⊢
    rw [h1, h3]
    omega
  · simp [combineLoop] at h1 h2 ⊢
    rw [h1, h2]
  · simp [combineLoop, List.foldl_append]

theorem aggregate_errors_eq (bucket : String) (l : List RefInput) :
    (aggregate bucket l).errors = l.filterMap (errOf bucket) := by
  rcases loop_inv bucket l ⟨[], [], 0, []⟩ with ⟨-, -, h3⟩
  simp [combineLoop] at h3
  simp [aggregate, combineLoop, h3]

theorem aggregate_count_eq (bucket : String) (l : List RefInput) :
    (aggregate bucket l).successful_pages_loaded = (l.filter (isOk bucket)).length := by
  rcases loop_inv bucket l ⟨[], [], 0, []⟩ with ⟨-, h2, -⟩
  simp [combineLoop] at h2
  simp [aggregate, combineLoop, h2]

/-- C2. The overall `processing_status`: `Completed` for a non-empty
input with no load errors; `CompletedWithErrors` when some but not all
references failed to load; `Failed` when the input was non-empty and no
page loaded; and the empty-input early return yields the trivial
`Success` response with zero counts, an empty artifact map and no
aggregate document assembled. -/
theorem combiner_status_spec (bucket outPre run_uuid base fmt : String)
    (l : List RefInput) (uj uf : Bool) :
    (l ≠ [] → (aggregate bucket l).errors = [] →
        (aggregate bucket l).pstatus = "Completed") ∧
      ((aggregate bucket l).errors ≠ [] →
        (aggregate bucket l).errors.length < l.length →
        (aggregate bucket l).pstatus = "CompletedWithErrors") ∧
      (l ≠ [] → (aggregate bucket l).successful_pages_loaded = 0 →
        (aggregate bucket l).pstatus = "Failed") ∧
      lambda_handler bucket outPre run_uuid base [] fmt uj uf
        = { status := "Success", final_outputs := [], total_pages_input := 0,
            successful_pages_loaded := 0, load_error_count := 0, aggregated := none } := by
  have herr := aggregate_errors_eq bucket l
  have hcnt := aggregate_count_eq bucket l
  have hlen := filterMap_errOf_length bucket l
  have hagg : (aggregate bucket l).pstatus
      = processing_status l.length (combineLoop bucket l).count
          (combineLoop bucket l).errors.length := by
    simp [aggregate]
  have hc : (combineLoop bucket l).count = (l.filter (isOk bucket)).length := by
    rcases loop_inv bucket l ⟨[], [], 0, []⟩ with ⟨-, h2, -⟩
    simpa [combineLoop] using h2
  have he : (combineLoop bucket l).errors = l.filterMap (errOf bucket) := by
    rcases loop_inv bucket l ⟨[], [], 0, []⟩ with ⟨-, -, h3⟩
    simpa [combineLoop] using h3
  refine ⟨?_, ?_, ?_, ?_⟩
  · intro hne h0
    rw [herr] at h0
    have hcl : (combineLoop bucket l).count = l.length := by
      rw [hc]
      rw [h0] at hlen
      simpa using hlen
    have hll : l.length ≠ 0 := by
      have := List.length_pos.mpr hne
      omega
    rw [hagg, hcl, he, h0]
    simp [processing_status, hll]
  · intro hne hlt
    rw [herr] at hne hlt
    have hcl : 0 < (combineLoop bucket l).count := by
      rw [hc]
      omega
    have hee : (combineLoop bucket l).errors.length ≠ 0 := by
      rw [he]
      simpa using hne
    have hcond : ¬ ((combineLoop bucket l).count = 0 ∧ 0 < l.length) := by omega
    rw [hagg]
    simp [processing_status, hee, hcond]
  · intro hne h0
    rw [aggregate_count_eq bucket l] at h0
    have hll : 0 < l.length := List.length_pos.mpr hne
    rw [hagg, hc, h0]
    simp [processing_status, hll]
  · simp [lambda_handler]

theorem combiner_status_spec_witness :
    ((aggregate "B" [⟨"s3://B/r/d_page_1_result.json",
          .dict ⟨some 1, true, .str "A", true, some "markdown", .null⟩⟩]).pstatus
        = "Completed") ∧
      ((aggregate "B" [⟨"s3://B/r/d_page_1_result.json",
            .dict ⟨some 1, true, .str "A", true, some "markdown", .null⟩⟩,
          ⟨"s3://B/r/d_page_2_result.json", .fetchErr "boom"⟩]).pstatus
        = "CompletedWithErrors") ∧
      ((aggregate "B" [⟨"s3://B/r/d_page_2_result.json", .fetchErr "boom"⟩]).pstatus
        = "Failed") ∧
      lambda_handler "B" "final-outputs" "r" "d" [] "markdown" true true
        = { status := "Success", final_outputs := [], total_pages_input := 0,
            successful_pages_loaded := 0, load_error_count := 0, aggregated := none } := by
  refine ⟨?_, ?_, ?_, ?_⟩
  · exact (combiner_status_spec "B" "p" "r" "d" "markdown" _ true true).1
      (by decide) (by decide)
  · exact (combiner_status_spec "B" "p" "r" "d" "markdown" _ true true).2.1
      (by decide) (by decide)
  · exact (combiner_status_spec "B" "p" "r" "d" "markdown" _ true true).2.2.1
      (by decide) (by decide)
  · exact (combiner_status_spec "B" "final-outputs" "r" "d" "markdown" [] true true).2.2.2

/-- C5. The final reported status of a (non-trivial) aggregation run is
`Failure` exactly when the overall aggregation status is `Failed` or the
mandatory JSON artifact upload failed; a `CompletedWithErrors`
aggregation status maps to `SuccessWithErrors`; otherwise the status is
`Success`.  The rendered-format pipeline cannot downgrade it: the status
is identical whether the format upload succeeds or fails, and identical
for any requested format. -/
theorem combiner_final_status_spec (bucket outPre run_uuid base fmt fmt2 : String)
    (l : List RefInput) (uj uf uf2 : Bool) (hl : l ≠ []) :
    ((lambda_handler bucket outPre run_uuid base l fmt uj uf).status
        = if (aggregate bucket l).pstatus = "Failed" ∨ uj = false then "Failure"
          else if (aggregate bucket l).pstatus = "CompletedWithErrors" then "SuccessWithErrors"
          else "Success") ∧
      (lambda_handler bucket outPre run_uuid base l fmt uj uf).status
        = (lambda_handler bucket outPre run_uuid base l fmt2 uj uf2).status := by
  constructor
  · simp [lambda_handler, hl]
  · simp [lambda_handler, hl]

theorem combiner_final_status_spec_witness :
    ((lambda_handler "B" "p" "r" "d"
          [⟨"s3://B/r/d_page_1_result.json",
            .dict ⟨some 1, true, .str "A", true, some "markdown", .null⟩⟩,
           ⟨"s3://B/r/d_page_2_result.json", .fetchErr "boom"⟩]
          "markdown" true true).status
        = "SuccessWithErrors") ∧
      (lambda_handler "B" "p" "r" "d"
          [⟨"s3://B/r/d_page_1_result.json",
            .dict ⟨some 1, true, .str "A", true, some "markdown", .null⟩⟩,
           ⟨"s3://B/r/d_page_2_result.json", .fetchErr "boom"⟩]
          "markdown" true true).status
        = (lambda_handler "B" "p" "r" "d"
            [⟨"s3://B/r/d_page_1_result.json",
              .dict ⟨some 1, true, .str "A", true, some "markdown", .null⟩⟩,
             ⟨"s3://B/r/d_page_2_result.json", .fetchErr "boom"⟩]
            "html" true false).status := by
  have h := combiner_final_status_spec "B" "p" "r" "d" "markdown" "html"
    [⟨"s3://B/r/d_page_1_result.json",
      .dict ⟨some 1, true, .str "A", true, some "markdown", .null⟩⟩,
     ⟨"s3://B/r/d_page_2_result.json", .fetchErr "boom"⟩]
    true true false (by decide)
  refine ⟨?_, h.2⟩
  rw [h.1]
  decide

/-- C3 counterexample. A page where extraction succeeded
(`extracted_output = "Hello"`, non-empty) and raw text was present, and
where the grounding call returned the non-empty string
`"[START DESCRIPTION][END DESCRIPTION]"`: token stripping leaves the
empty string, which is falsy, so the persisted `grounded_output` field
is null although the extracted content is present — refuting
"the persisted grounded content is never null when extracted content is
present". -/
theorem grounded_never_null_counterexample :
    computeGrounded "markdown" (fun _ => none) "raw text" "Hello"
        (some "[START DESCRIPTION][END DESCRIPTION]") = .vstr "" ∧
      persistedGrounded "markdown" (fun _ => none)
          (computeGrounded "markdown" (fun _ => none) "raw text" "Hello"
            (some "[START DESCRIPTION][END DESCRIPTION]")) = some none ∧
      persistedExtracted "markdown" (fun _ => none) "Hello" = some (.vstr "Hello") ∧
      ("Hello" : String) ≠ "" := by
  refine ⟨rfl, rfl, rfl, by decide⟩

theorem persistedGrounded_null_iff (fmt : String) (jparse : String → Option PyJson)
    (v : PyVal) :
    persistedGrounded fmt jparse v = some none ↔ v.vtruthy = false := by
  unfold persistedGrounded
  cases hv : v.vtruthy
  · simp
  · simp only [if_pos rfl]
    cases hfo : format_output_based_on_type fmt jparse v <;> simp [hfo]

/-- C3 amended, for every output format (json included) and every
`json.loads` behaviour: when raw text is absent the grounding call is
never consulted (the result is independent of the collaborator's answer)
and the computed grounded content equals the description-token-stripped
extracted content; when the grounding call fails or returns empty, the
grounded content falls back to the extracted content unchanged; and the
persisted grounded field is null exactly when the computed grounded
content is falsy — in particular it is never null when that content is
truthy, but (see the counterexample) it is persisted as null when the
computed content is empty, even though extracted content is present. -/
theorem grounding_spec (fmt raw e : String) (jparse : String → Option PyJson)
    (r r2 : Option String) (hraw : raw ≠ "") :
    (computeGrounded fmt jparse "" e r = clean_description_tokens fmt jparse (.vstr e) ∧
        computeGrounded fmt jparse "" e r = computeGrounded fmt jparse "" e r2) ∧
      (computeGrounded fmt jparse raw e none = .vstr e ∧
        computeGrounded fmt jparse raw e (some "") = .vstr e) ∧
      (persistedGrounded fmt jparse (computeGrounded fmt jparse raw e r) = some none
        ↔ (computeGrounded fmt jparse raw e r).vtruthy = false) := by
  refine ⟨⟨?_, ?_⟩, ⟨?_, ?_⟩, ?_⟩
  · simp [computeGrounded]
  · simp [computeGrounded]
  · simp [computeGrounded, hraw]
  · simp [computeGrounded, hraw]
  · exact persistedGrounded_null_iff fmt jparse _

theorem grounding_spec_witness :
    (computeGrounded "json" (fun _ => none) "" "E" (some "zzz")
        = clean_description_tokens "json" (fun _ => none) (.vstr "E") ∧
      computeGrounded "json" (fun _ => none) "" "E" (some "zzz")
        = computeGrounded "json" (fun _ => none) "" "E" (none : Option String)) ∧
      (computeGrounded "json" (fun _ => none) "raw" "E" none = .vstr "E" ∧
        computeGrounded "json" (fun _ => none) "raw" "E" (some "") = .vstr "E") ∧
      (persistedGrounded "json" (fun _ => none)
            (computeGrounded "json" (fun _ => none) "raw" "E" (some "zzz")) = some none
        ↔ (computeGrounded "json" (fun _ => none) "raw" "E" (some "zzz")).vtruthy = false) :=
  grounding_spec "json" "raw" "E" (fun _ => none) (some "zzz") none (by decide)

theorem dictGet_foldl (m : List (Int × Box)) (k : Int) (acc : Option Box) :
    m.foldl (fun acc p => if p.1 = k then some p.2 else acc) acc
      = match dictGet m k with
        | some b => some b
        | none => acc := by
  induction m generalizing acc with
  | nil => simp [dictGet]
  | cons p m ih =>
    show m.foldl _ (if p.1 = k then some p.2 else acc) = _
    rw [ih]
    have hcons : dictGet (p :: m) k
        = match dictGet m k with
          | some b => some b
          | none => if p.1 = k then some p.2 else none := by
      show m.foldl _ (if p.1 = k then some p.2 else none) = _
      rw [ih]
    rw [hcons]
    cases hmk : dictGet m k with
    | some b => rfl
    | none =>
      by_cases hpk : p.1 = k
      · simp [hpk]
      · simp [hpk]

theorem dictGet_cons (p : Int × Box) (m : List (Int × Box)) (k : Int) :
    dictGet (p :: m) k
      = match dictGet m k with
        | some b => some b
        | none => if p.1 = k then some p.2 else none := by
  show m.foldl _ (if p.1 = k then some p.2 else none) = _
  rw [dictGet_foldl]

theorem dictGet_mem_of_some {m : List (Int × Box)} {k : Int} {b : Box}
    (h : dictGet m k = some b) : k ∈ m.map Prod.fst := by
  induction m with
  | nil => simp [dictGet] at h
  | cons p m ih =>
    rw [dictGet_cons] at h
    cases hm : dictGet m k with
    | some c =>
      rw [hm] at h
      simp only [Option.some.injEq] at h
      subst h
      exact List.mem_cons_of_mem _ (ih hm)
    | none =>
      rw [hm] at h
      by_cases hpk : p.1 = k
      · simp only [List.map_cons]
        rw [← hpk]
        exact List.mem_cons_self _ _
      · simp [hpk] at h

theorem dictGet_zip_isSome {indices : List Int} {boxes : List Box} {k : Int}
    (hlen : indices.length = boxes.length) (hk : k ∈ indices) :
    (dictGet (indices.zip boxes) k).isSome = true := by
  induction indices generalizing boxes with
  | nil => simp at hk
  | cons i is ih =>
    cases boxes with
    | nil => simp at hlen
    | cons b bs =>
      simp only [List.zip_cons_cons]
      rw [dictGet_cons]
      rcases List.mem_cons.mp hk with hki | hki
      · cases hrest : dictGet (is.zip bs) k with
        | some c => simp
        | none => simp [hki.symm]
      · have hic := ih (by simpa using hlen) hki
        cases hrest : dictGet (is.zip bs) k with
        | some c => simp
        | none => rw [hrest] at hic; simp at hic

theorem textItemDesc_some {m : List (Int × Box)} {crops found : Int → Option String}
    {idx : Int} {d : ImageDescription} (h : textItemDesc m crops found idx = some d) :
    d.image_id = idx ∧ d.coordinates = (dictGet m idx).getD [] := by
  unfold textItemDesc at h
  split at h
  · simp only [Option.some.injEq] at h
    subst h
    exact ⟨rfl, rfl⟩
  · simp at h

theorem itemDesc_ok_some {m : List (Int × Box)} {crops : Int → Option String}
    {fs : List (String × PyJson)} {d : ImageDescription}
    (h : itemDesc m crops fs = .ok (some d)) :
    dictGet m d.image_id = some d.coordinates := by
  unfold itemDesc at h
  repeat' split at h
  all_goals try simp_all
  subst h
  rename_i heq
  simpa using heq

theorem itemsWalk_mem {m : List (Int × Box)} {crops : Int → Option String}
    {items : List PyJson} {descs : List ImageDescription} {d : ImageDescription}
    (h : itemsWalk m crops items = .ok descs) (hd : d ∈ descs) :
    dictGet m d.image_id = some d.coordinates := by
  induction items generalizing descs with
  | nil =>
    simp only [itemsWalk, Except.ok.injEq] at h
    subst h
    simp at hd
  | cons x rest ih =>
    cases x with
    | jdict fs =>
      simp only [itemsWalk] at h
      cases hid : itemDesc m crops fs with
      | error e => rw [hid] at h; simp at h
      | ok od =>
        rw [hid] at h
        cases hw : itemsWalk m crops rest with
        | error e => rw [hw] at h; simp at h
        | ok t =>
          rw [hw] at h
          simp only [Except.ok.injEq] at h
          subst h
          rcases List.mem_append.mp hd with hmem | hmem
          · cases od with
            | none => simp at hmem
            | some d0 =>
              simp only [Option.toList_some, List.mem_singleton] at hmem
              subst hmem
              exact itemDesc_ok_some hid
          · exact ih hw hmem
    | jnull => simp [itemsWalk] at h
    | jbool b => simp [itemsWalk] at h
    | jnum z => simp [itemsWalk] at h
    | jstr s2 => simp [itemsWalk] at h
    | jarr xs => simp [itemsWalk] at h

theorem jsonStrategy_mem {data : Option PyJson} {m : List (Int × Box)}
    {crops : Int → Option String} {descs : List ImageDescription} {d : ImageDescription}
    (h : jsonStrategy data m crops = .ok descs) (hd : d ∈ descs) :
    dictGet m d.image_id = some d.coordinates := by
  cases data with
  | none =>
    simp only [jsonStrategy, Except.ok.injEq] at h
    subst h
    simp at hd
  | some j =>
    simp only [jsonStrategy] at h
    cases j with
    | jdict fs =>
      simp only [jsonStrategyVal] at h
      cases hlf : lookupField fs "page_content" with
      | none =>
        rw [hlf] at h
        simp only [Except.ok.injEq] at h
        subst h
        simp at hd
      | some v =>
        rw [hlf] at h
        simp only [] at h
        cases v with
        | jarr items =>
          simp only [pcValueWalk] at h
          exact itemsWalk_mem h hd
        | jstr s2 =>
          simp only [pcValueWalk] at h
          split at h
          · simp only [Except.ok.injEq] at h
            subst h
            simp at hd
          · simp at h
        | jdict fs2 =>
          simp only [pcValueWalk] at h
          split at h
          · simp only [Except.ok.injEq] at h
            subst h
            simp at hd
          · simp at h
        | jnull => simp [pcValueWalk] at h
        | jbool b => simp [pcValueWalk] at h
        | jnum z => simp [pcValueWalk] at h
    | jarr xs =>
      simp only [jsonStrategyVal] at h
      split at h
      · simp at h
      · simp only [Except.ok.injEq] at h
        subst h
        simp at hd
    | jstr s2 =>
      simp only [jsonStrategyVal] at h
      split at h
      · simp at h
      · simp only [Except.ok.injEq] at h
        subst h
        simp at hd
    | jnull => simp [jsonStrategyVal] at h
    | jbool b => simp [jsonStrategyVal] at h
    | jnum z => simp [jsonStrategyVal] at h

theorem jsonStrategy_nil {data : Option PyJson} {crops : Int → Option String}
    {descs : List ImageDescription} (h : jsonStrategy data [] crops = .ok descs) :
    descs = [] := by
  rcases descs with _ | ⟨d, rest⟩
  · rfl
  · exfalso
    have := jsonStrategy_mem h (List.mem_cons_self d rest)
    simp [dictGet] at this

/-- C4. Every image description recovered by
`_extract_image_descriptions` (by either strategy, whenever the function
returns rather than raising) has an `image_id` that is one of the
detection indices produced for the page, and its `coordinates` are
exactly the bounding box the index-to-box dict associates with that
index. -/
theorem image_descriptions_spec (jdata : Option PyJson) (fmt : String)
    (boxes : List Box) (indices : List Int) (crops found : Int → Option String)
    (descs : List ImageDescription)
    (hlen : indices.length = boxes.length)
    (hok : extract_image_descriptions jdata fmt boxes indices crops found = .ok descs) :
    ∀ d ∈ descs,
      d.image_id ∈ indices ∧ dictGet (indices.zip boxes) d.image_id = some d.coordinates := by
  intro d hd
  have memText : d ∈ descsFromText indices (indices.zip boxes) crops found →
      d.image_id ∈ indices ∧ dictGet (indices.zip boxes) d.image_id = some d.coordinates := by
    intro hmem
    rcases List.mem_filterMap.mp hmem with ⟨idx, hidx, hf⟩
    rcases textItemDesc_some hf with ⟨hid, hco⟩
    subst hid
    have hsome := dictGet_zip_isSome hlen hidx
    rcases Option.isSome_iff_exists.mp hsome with ⟨b, hb⟩
    refine ⟨hidx, ?_⟩
    rw [hb, hco, hb]
    rfl
  by_cases hfmt : fmt = "json"
  · simp only [extract_image_descriptions, if_pos hfmt] at hok
    split at hok
    · simp at hok
    · rename_i jd hjs
      split at hok
      · simp only [Except.ok.injEq] at hok
        subst hok
        exact memText hd
      · simp only [Except.ok.injEq] at hok
        subst hok
        have hdg := jsonStrategy_mem hjs hd
        have hmemKeys := dictGet_mem_of_some hdg
        rcases List.mem_map.mp hmemKeys with ⟨pr, hpr, hfst⟩
        refine ⟨?_, hdg⟩
        rw [← hfst]
        exact (List.of_mem_zip hpr).1
  · simp only [extract_image_descriptions, if_neg hfmt, Except.ok.injEq] at hok
    subst hok
    exact memText hd

theorem image_descriptions_spec_witness :
    ([1, 2] : List Int).length = ([[0, 0, 5, 5], [2, 2, 9, 9]] : List Box).length ∧
      ((1 : Int) ∈ ([1, 2] : List Int) ∧
        dictGet (([1, 2] : List Int).zip ([[0, 0, 5, 5], [2, 2, 9, 9]] : List Box)) 1
          = some [0, 0, 5, 5]) := by
  constructor
  · decide
  · have hres : extract_image_descriptions
        (some (.jdict [("page_content", .jarr [.jdict [("type", .jstr "image_description"),
          ("image_id", .jnum 1), ("description", .jstr "a chart")]])]))
        "json" [[0, 0, 5, 5], [2, 2, 9, 9]] [1, 2] (fun _ => none) (fun _ => none)
        = .ok [⟨1, .jstr "a chart", [0, 0, 5, 5], none⟩] := rfl
    have h := image_descriptions_spec
      (some (.jdict [("page_content", .jarr [.jdict [("type", .jstr "image_description"),
        ("image_id", .jnum 1), ("description", .jstr "a chart")]])]))
      "json" [[0, 0, 5, 5], [2, 2, 9, 9]] [1, 2] (fun _ => none) (fun _ => none)
      [⟨1, .jstr "a chart", [0, 0, 5, 5], none⟩] (by decide) hres
    exact h _ (List.mem_singleton_self _)

/-- C6 counterexample. A page with zero surviving detections whose
JSON-format LLM output parses to the bare scalar `42`: the detection
step correctly returns the unmodified image with empty collections, but
`"page_content" in data` raises an uncaught `TypeError` out of
`_extract_image_descriptions` into the page-level handler, failing the
page — refuting "image_descriptions is an empty list with no exception
raised". -/
theorem empty_detections_counterexample :
    run_yolo_inference (fun (i : String) (_ : List Box) => i) "img"
        [⟨[0, 0, 4, 4], 0, 6⟩] 1 (some 6) 100 100 640 640 = ("img", [], []) ∧
      extract_image_descriptions (some (.jnum 42)) "json" [] []
          (fun _ => none) (fun _ => none) = .error () := by
  constructor
  · decide
  · rfl

/-- C6 amended. A page with zero detections surviving the confidence
and target-class filter is never an error for the detection step:
`run_yolo_inference` returns the unmodified input image with empty box
and index collections.  The description-extraction step on an empty
index list returns an empty `image_descriptions` list whenever it
returns at all, and for the non-JSON formats it always returns (no
exception is possible there); for the JSON format, however, a malformed
LLM output can raise an uncaught `TypeError`/`AttributeError` even with
zero detections — see the counterexample. -/
theorem empty_detections_spec {Image : Type} (drawFn : Image → List Box → Image)
    (image : Image) (dets : List RawDet) (conf_thres : Rat) (target_class_id : Option Int)
    (img_width img_height input_width input_height : Rat)
    (jdata : Option PyJson) (fmt : String) (boxes : List Box)
    (crops found : Int → Option String) (descs : List ImageDescription)
    (hnone : dets.filter (detKeep conf_thres target_class_id) = []) :
    run_yolo_inference drawFn image dets conf_thres target_class_id
        img_width img_height input_width input_height = (image, [], []) ∧
      (extract_image_descriptions jdata fmt boxes [] crops found = .ok descs → descs = []) ∧
      (fmt ≠ "json" → extract_image_descriptions jdata fmt boxes [] crops found = .ok []) := by
  refine ⟨?_, ?_, ?_⟩
  · simp [run_yolo_inference, hnone]
  · intro hok
    by_cases hfmt : fmt = "json"
    · simp only [extract_image_descriptions, if_pos hfmt] at hok
      cases hjs : jsonStrategy jdata (([] : List Int).zip boxes) crops with
      | error e => rw [hjs] at hok; simp at hok
      | ok jd =>
        rw [hjs] at hok
        have hjd : jd = [] := jsonStrategy_nil hjs
        subst hjd
        simp [descsFromText] at hok
        exact hok
    · simp only [extract_image_descriptions, if_neg hfmt, Except.ok.injEq] at hok
      simp [descsFromText] at hok
      exact hok
  · intro hfmt
    simp [extract_image_descriptions, hfmt, descsFromText]

theorem empty_detections_spec_witness :
    run_yolo_inference (fun (i : String) (_ : List Box) => i) "img"
        [⟨[0, 0, 4, 4], 0, 6⟩, ⟨[0, 0, 4, 4], 3, 3⟩] 1 (some 6) 100 100 640 640
        = ("img", [], []) ∧
      (extract_image_descriptions (some (.jdict [("page_content", .jarr [])])) "markdown"
          [] [] (fun _ => none) (fun _ => some "d") = .ok ([] : List ImageDescription) →
        ([] : List ImageDescription) = []) ∧
      ("markdown" ≠ "json" →
        extract_image_descriptions (some (.jdict [("page_content", .jarr [])])) "markdown"
          [] [] (fun _ => none) (fun _ => some "d") = .ok []) := by
  exact empty_detections_spec _ "img" _ 1 (some 6) 100 100 640 640
    (some (.jdict [("page_content", .jarr [])])) "markdown" []
    (fun _ => none) (fun _ => some "d") [] (by decide)

/-- The grounded string of a page (the value `output_parts` appends when
`grounded_output` is a string). -/
def groundedStr (p : XPage) : String :=
  match p.grounded_output with
  | .str s => s
  | _ => ""

theorem renderParts_eq_map {ps : List XPage}
    (h : ∀ p ∈ ps, ∃ s, p.grounded_output = .str s ∧ s ≠ "") :
    renderParts ps = ps.map groundedStr := by
  induction ps with
  | nil => rfl
  | cons p ps ih =>
    rcases h p (List.mem_cons_self _ _) with ⟨s, hs, hne⟩
    have hrest := ih (fun q hq => h q (List.mem_cons_of_mem _ hq))
    simp only [renderParts, List.filterMap_cons, List.map_cons]
    rw [show renderPart p = some s by simp [renderPart, hs, hne]]
    rw [show groundedStr p = s by simp [groundedStr, hs]]
    simpa [renderParts] using hrest

/-- C8. Rendering the markdown artifact from an aggregate whose pages
(at least two) all carry non-empty string grounded content joins the
pages' grounded contents, in sorted page order, with the separator
literal `"\n\n---\n\n"` between each consecutive pair. -/
theorem markdown_separator_spec (A : AggJson) (h2 : 2 ≤ A.pages.length)
    (hstr : ∀ p ∈ A.pages, ∃ s, p.grounded_output = .str s ∧ s ≠ "") :
    generate_format_from_json A "markdown"
      = some (String.intercalate "\n\n---\n\n" ((sortPages A.pages).map groundedStr)) := by
  have hne : A.pages ≠ [] := by
    intro h
    rw [h] at h2
    simp at h2
  have hsorted : ∀ p ∈ sortPages A.pages, ∃ s, p.grounded_output = .str s ∧ s ≠ "" := by
    intro p hp
    exact hstr p ((List.perm_insertionSort _ _).mem_iff.mp hp)
  have hparts := renderParts_eq_map hsorted
  simp [generate_format_from_json, hne, hparts]

theorem markdown_separator_spec_witness :
    generate_format_from_json
        ⟨2, 2, 0, "Completed", ["markdown"],
          [⟨2, "markdown", .str "World", .null⟩, ⟨1, "markdown", .str "Hello", .null⟩], []⟩
        "markdown"
      = some "Hello\n\n---\n\nWorld" := by
  have h := markdown_separator_spec
    ⟨2, 2, 0, "Completed", ["markdown"],
      [⟨2, "markdown", .str "World", .null⟩, ⟨1, "markdown", .str "Hello", .null⟩], []⟩
    (by decide)
    (by
      intro p hp
      simp only [List.mem_cons, List.not_mem_nil, or_false] at hp
      rcases hp with h | h
      · exact ⟨"World", by rw [h], by decide⟩
      · exact ⟨"Hello", by rw [h], by decide⟩)
  rw [h]
  decide

/-- C9. In the rendered HTML artifact: (1) the output is the single
document shell around the numbered page divs of the truthy grounded
parts of the sorted pages; (2) a page whose grounded content is missing
or empty contributes nothing (it is silently omitted from the parts
list); (3) concretely, a document whose first page has null grounded
content and whose second page (page_number 2) has content "Hello"
renders exactly one div with id "page-1" — the id is the 1-based
position among rendered parts, not the page's own page number. -/
theorem html_render_spec (A : AggJson) (xs ys : List XPage) (p : XPage)
    (hne : A.pages ≠ []) (hp : renderPart p = none) :
    generate_format_from_json A "html"
        = some (html_head ++ String.intercalate "\n"
            (pageDivs (renderParts (sortPages A.pages))) ++ html_foot) ∧
      renderParts (xs ++ p :: ys) = renderParts (xs ++ ys) ∧
      generate_format_from_json
          ⟨2, 2, 0, "Completed", ["markdown"],
            [⟨1, "markdown", .null, .null⟩, ⟨2, "markdown", .str "Hello", .null⟩], []⟩ "html"
        = some (html_head ++ "<div class=\"page\" id=\"page-1\">\nHello\n</div>" ++ html_foot) := by
  refine ⟨?_, ?_, ?_⟩
  · simp [generate_format_from_json, hne]
  · simp [renderParts, hp]
  · decide

theorem html_render_spec_witness :
    generate_format_from_json
        ⟨1, 1, 0, "Completed", ["markdown"], [⟨1, "markdown", .str "A", .null⟩], []⟩ "html"
        = some (html_head ++ String.intercalate "\n"
            (pageDivs (renderParts (sortPages [⟨1, "markdown", .str "A", .null⟩]))) ++ html_foot) ∧
      renderParts ([⟨1, "markdown", .str "A", .null⟩] ++ ⟨7, "markdown", .null, .null⟩
            :: [⟨2, "markdown", .str "B", .null⟩])
        = renderParts ([⟨1, "markdown", .str "A", .null⟩] ++ [⟨2, "markdown", .str "B", .null⟩]) ∧
      generate_format_from_json
          ⟨2, 2, 0, "Completed", ["markdown"],
            [⟨1, "markdown", .null, .null⟩, ⟨2, "markdown", .str "Hello", .null⟩], []⟩ "html"
        = some (html_head ++ "<div class=\"page\" id=\"page-1\">\nHello\n</div>" ++ html_foot) :=
  html_render_spec
    ⟨1, 1, 0, "Completed", ["markdown"], [⟨1, "markdown", .str "A", .null⟩], []⟩
    [⟨1, "markdown", .str "A", .null⟩] [⟨2, "markdown", .str "B", .null⟩]
    ⟨7, "markdown", .null, .null⟩ (by decide) (by decide)

/-- An input is "resolvable" when, if its load succeeds, its page number
can be determined without the sequential counter: the page object itself
carries one, or one is parsed from the reference's naming convention. -/
def resolvable (bucket : String) (inp : RefInput) : Bool :=
  match classify bucket inp with
  | .fail _ => true
  | .ok pn est _ _ _ => pn.isSome || est.isSome

/-- The page contributed by a resolvable input, independent of the loop
state. -/
def pageOf (bucket : String) (inp : RefInput) : Option XPage :=
  match classify bucket inp with
  | .fail _ => none
  | .ok pn est fmt g x =>
    match pn with
    | some n => some ⟨n, fmt, g, x⟩
    | none =>
      match est with
      | some e => some ⟨e, fmt, g, x⟩
      | none => none

theorem loop_pages_resolvable (bucket : String) (l : List RefInput) (st : LoopState)
    (h : ∀ inp ∈ l, resolvable bucket inp = true) :
    (l.foldl (processOne bucket) st).pages = st.pages ++ l.filterMap (pageOf bucket) := by
  induction l generalizing st with
  | nil => simp
  | cons x l ih =>
    have hx := h x (List.mem_cons_self _ _)
    have hrest : ∀ inp ∈ l, resolvable bucket inp = true :=
      fun inp hi => h inp (List.mem_cons_of_mem _ hi)
    simp only [List.foldl_cons, List.filterMap_cons]
    rw [ih _ hrest]
    cases hcl : classify bucket x with
    | fail e =>
      simp [processOne, hcl, pageOf]
    | ok pn est fmt g xo =>
      unfold resolvable at hx
      rw [hcl] at hx
      cases pn with
      | some n => simp [processOne, hcl, pageOf]
      | none =>
        cases est with
        | some e => simp [processOne, hcl, pageOf]
        | none => simp at hx

theorem sortPages_eq_of_perm {p1 p2 : List XPage} (hperm : p1.Perm p2)
    (hnd : (p1.map XPage.page_number).Nodup) : sortPages p1 = sortPages p2 := by
  have hle : ∀ q : List XPage,
      List.Sorted (fun a b : XPage => a.page_number ≤ b.page_number) (sortPages q) := by
    intro q
    haveI : IsTotal XPage (fun a b : XPage => a.page_number ≤ b.page_number) :=
      ⟨fun a b => Int.le_total a.page_number b.page_number⟩
    haveI : IsTrans XPage (fun a b : XPage => a.page_number ≤ b.page_number) :=
      ⟨fun _ _ _ hab hbc => le_trans hab hbc⟩
    exact List.sorted_insertionSort _ q
  have hps1 : (sortPages p1).Perm p1 := List.perm_insertionSort _ _
  have hps2 : (sortPages p2).Perm p2 := List.perm_insertionSort _ _
  have hndm : ∀ q : List XPage, q.Perm p1 → q.Pairwise (fun a b => a.page_number ≠ b.page_number) := by
    intro q hq
    have : (q.map XPage.page_number).Nodup :=
      ((hq.map XPage.page_number).nodup_iff).mpr hnd
    exact List.pairwise_map.mp this
  have hstrict : ∀ q : List XPage, q.Perm p1 →
      List.Sorted (fun a b : XPage => a.page_number ≤ b.page_number) q →
      List.Sorted (fun a b : XPage => a.page_number < b.page_number) q := by
    intro q hq hs
    have hpn := hndm q hq
    exact (hs.and hpn).imp (fun h => lt_of_le_of_ne h.1 h.2)
  haveI : IsAntisymm XPage (fun a b : XPage => a.page_number < b.page_number) :=
    ⟨fun a b h1 h2 => absurd (lt_trans h1 h2) (lt_irrefl _)⟩
  exact List.eq_of_perm_of_sorted
    (hps1.trans (hperm.trans hps2.symm))
    (hstrict _ hps1 (hle p1))
    (hstrict _ (hps2.trans hperm.symm) (hle p2))

/-- C7 counterexample. Two page-result references whose objects carry no
page number and whose names yield no estimate (the page processor's
actual `_results` suffix defeats the estimator): the sequential-counter
backfill then numbers pages by arrival order, so aggregating the same
two references in the two possible orders produces differently ordered
(indeed different) page lists — refuting order-independent
re-aggregation.  The reversed list is a permutation of the original, so
this is an instance of "the same set, in another input order". -/
theorem aggregation_order_counterexample :
    ([⟨"s3://B/r/d_page_1_results.json",
          .dict ⟨none, true, .str "A", true, some "markdown", .null⟩⟩,
        ⟨"s3://B/r/d_page_2_results.json",
          .dict ⟨none, true, .str "Bc", true, some "markdown", .null⟩⟩] : List RefInput).Perm
      [⟨"s3://B/r/d_page_2_results.json",
          .dict ⟨none, true, .str "Bc", true, some "markdown", .null⟩⟩,
        ⟨"s3://B/r/d_page_1_results.json",
          .dict ⟨none, true, .str "A", true, some "markdown", .null⟩⟩] ∧
      (aggregate "B" [⟨"s3://B/r/d_page_1_results.json",
          .dict ⟨none, true, .str "A", true, some "markdown", .null⟩⟩,
        ⟨"s3://B/r/d_page_2_results.json",
          .dict ⟨none, true, .str "Bc", true, some "markdown", .null⟩⟩]).pages.map
          XPage.grounded_output
        ≠ (aggregate "B" [⟨"s3://B/r/d_page_2_results.json",
            .dict ⟨none, true, .str "Bc", true, some "markdown", .null⟩⟩,
          ⟨"s3://B/r/d_page_1_results.json",
            .dict ⟨none, true, .str "A", true, some "markdown", .null⟩⟩]).pages.map
            XPage.grounded_output := by
  constructor
  · exact List.Perm.swap _ _ _
  · decide

/-- C7 amended. Re-aggregating the same page-result references is
deterministic (the model is a pure function of the references and their
load outcomes), and it is order-independent provided every successfully
loaded page has a resolvable page number (from the object itself or the
reference's naming convention) and those numbers are pairwise distinct:
then any permutation of the input list yields the identical sorted page
list and a permutation (identical multiset) of the load-error records.
Without resolvable numbers the sequential-counter backfill (or a stable
sort among equal page numbers) makes the page order depend on the input
order, as the counterexample shows. -/
theorem aggregation_order_spec (bucket : String) (l1 l2 : List RefInput)
    (hperm : l1.Perm l2)
    (hres : ∀ inp ∈ l1, resolvable bucket inp = true)
    (hnd : ((l1.filterMap (pageOf bucket)).map XPage.page_number).Nodup) :
    (aggregate bucket l1).pages = (aggregate bucket l2).pages ∧
      (aggregate bucket l1).errors.Perm (aggregate bucket l2).errors := by
  have hres2 : ∀ inp ∈ l2, resolvable bucket inp = true :=
    fun inp hi => hres inp (hperm.mem_iff.mpr hi)
  constructor
  · have h1 : (aggregate bucket l1).pages = sortPages (l1.filterMap (pageOf bucket)) := by
      have := loop_pages_resolvable bucket l1 ⟨[], [], 0, []⟩ hres
      simp [combineLoop] at this
      simp [aggregate, combineLoop, this]
    have h2 : (aggregate bucket l2).pages = sortPages (l2.filterMap (pageOf bucket)) := by
      have := loop_pages_resolvable bucket l2 ⟨[], [], 0, []⟩ hres2
      simp [combineLoop] at this
      simp [aggregate, combineLoop, this]
    rw [h1, h2]
    exact sortPages_eq_of_perm (hperm.filterMap _) hnd
  · rw [aggregate_errors_eq, aggregate_errors_eq]
    exact hperm.filterMap _

theorem aggregation_order_spec_witness :
    (aggregate "B" [⟨"s3://B/r/d_page_1_result.json",
          .dict ⟨none, true, .str "A", true, some "markdown", .null⟩⟩,
        ⟨"s3://B/r/bad.json", .fetchErr "boom"⟩,
        ⟨"s3://B/r/d_page_2_result.json",
          .dict ⟨some 2, true, .str "Bc", true, some "markdown", .null⟩⟩]).pages
      = (aggregate "B" [⟨"s3://B/r/d_page_2_result.json",
            .dict ⟨some 2, true, .str "Bc", true, some "markdown", .null⟩⟩,
          ⟨"s3://B/r/d_page_1_result.json",
            .dict ⟨none, true, .str "A", true, some "markdown", .null⟩⟩,
          ⟨"s3://B/r/bad.json", .fetchErr "boom"⟩]).pages ∧
      (aggregate "B" [⟨"s3://B/r/d_page_1_result.json",
            .dict ⟨none, true, .str "A", true, some "markdown", .null⟩⟩,
          ⟨"s3://B/r/bad.json", .fetchErr "boom"⟩,
          ⟨"s3://B/r/d_page_2_result.json",
            .dict ⟨some 2, true, .str "Bc", true, some "markdown", .null⟩⟩]).errors.Perm
        (aggregate "B" [⟨"s3://B/r/d_page_2_result.json",
              .dict ⟨some 2, true, .str "Bc", true, some "markdown", .null⟩⟩,
            ⟨"s3://B/r/d_page_1_result.json",
              .dict ⟨none, true, .str "A", true, some "markdown", .null⟩⟩,
            ⟨"s3://B/r/bad.json", .fetchErr "boom"⟩]).errors := by
  refine aggregation_order_spec "B" _ _ ?_ ?_ ?_
  · decide
  · intro inp hi
    simp only [List.mem_cons, List.not_mem_nil, or_false] at hi
    rcases hi with h | h | h <;> subst h <;> decide
  · decide

/-! ### Structural lemmas about `splitChar`, used to settle the
page-number naming convention -/

theorem splitChar_ne_nil (sep : Char) (l : List Char) : splitChar sep l ≠ [] := by
  cases l with
  | nil => simp [splitChar]
  | cons c rest =>
    simp only [splitChar]
    split
    · simp
    · split <;> simp

theorem splitChar_append (sep : Char) (a b : List Char) :
    splitChar sep (a ++ sep :: b) = splitChar sep a ++ splitChar sep b := by
  induction a with
  | nil => simp [splitChar]
  | cons c a ih =>
    rw [List.cons_append]
    by_cases hc : c = sep
    · simp only [splitChar, if_pos hc]
      rw [ih]
      simp
    · simp only [splitChar, if_neg hc]
      rw [ih]
      cases hs : splitChar sep a with
      | nil => exact absurd hs (splitChar_ne_nil sep a)
      | cons h0 t0 => simp

theorem splitChar_of_no_sep (sep : Char) (l : List Char) (h : ∀ c ∈ l, c ≠ sep) :
    splitChar sep l = [l] := by
  induction l with
  | nil => rfl
  | cons c rest ih =>
    have hc := h c (List.mem_cons_self _ _)
    simp only [splitChar, if_neg hc]
    rw [ih (fun x hx => h x (List.mem_cons_of_mem _ hx))]

/-- Re-joining split fragments with the separator (the inverse of
`splitChar`, used only in proofs). -/
def joinSep (sep : Char) : List (List Char) → List Char
  | [] => []
  | [a] => a
  | a :: rest => a ++ sep :: joinSep sep rest

theorem joinSep_splitChar (sep : Char) (l : List Char) :
    joinSep sep (splitChar sep l) = l := by
  induction l with
  | nil => rfl
  | cons c rest ih =>
    simp only [splitChar]
    by_cases hc : c = sep
    · rw [if_pos hc]
      cases hs : splitChar sep rest with
      | nil => exact absurd hs (splitChar_ne_nil sep rest)
      | cons h0 t0 =>
        rw [hs] at ih
        subst hc
        simp [joinSep, ih]
    · rw [if_neg hc]
      cases hs : splitChar sep rest with
      | nil => exact absurd hs (splitChar_ne_nil sep rest)
      | cons h0 t0 =>
        rw [hs] at ih
        cases t0 with
        | nil => simpa [joinSep] using ih
        | cons t1 t2 =>
          simp only [joinSep] at ih ⊢
          simp [ih]

theorem joinSep_append (sep : Char) (A B : List (List Char)) (hA : A ≠ []) (hB : B ≠ []) :
    joinSep sep (A ++ B) = joinSep sep A ++ sep :: joinSep sep B := by
  induction A with
  | nil => exact absurd rfl hA
  | cons a A ih =>
    cases A with
    | nil =>
      cases B with
      | nil => exact absurd rfl hB
      | cons b B => simp [joinSep]
    | cons a2 A2 =>
      have ih2 := ih (by simp)
      simp only [List.cons_append] at ih2 ⊢
      rw [show joinSep sep (a :: a2 :: (A2 ++ B)) = a ++ sep :: joinSep sep (a2 :: (A2 ++ B))
          from rfl]
      rw [show joinSep sep (a :: a2 :: A2) = a ++ sep :: joinSep sep (a2 :: A2) from rfl]
      rw [ih2]
      simp

theorem getD_append_self {α : Type} (A rest : List α) (d : α) :
    (A ++ rest).getD A.length d = rest.getD 0 d := by
  induction A with
  | nil => rfl
  | cons a A ih => simpa using ih

theorem getD_append_add {α : Type} (A rest : List α) (d : α) (i : Nat) :
    (A ++ rest).getD (A.length + i) d = rest.getD i d := by
  induction A with
  | nil => simp
  | cons a A ih => simpa [Nat.succ_add] using ih

theorem digit_ne_of_not_digit {c : Char} (h : c.isDigit = true) {d : Char}
    (hd : d.isDigit = false) : c ≠ d := by
  intro he
  subst he
  rw [h] at hd
  cases hd

theorem digit_not_ws {c : Char} (h : c.isDigit = true) : c.isWhitespace = false := by
  by_contra hw
  rw [Bool.not_eq_false] at hw
  have hOr : c = ' ' ∨ c = '\t' ∨ c = '\x0d' ∨ c = '\n' := by
    have h2 := hw
    simp only [Char.isWhitespace, Bool.or_eq_true, decide_eq_true_eq] at h2
    tauto
  rcases hOr with h1 | h1 | h1 | h1 <;> subst h1 <;> exact absurd h (by decide)

theorem trimWs_of_digits {ds : List Char} (hd : ∀ c ∈ ds, c.isDigit = true) :
    trimWs ds = ds := by
  unfold trimWs
  have h1 : ds.dropWhile Char.isWhitespace = ds := by
    cases ds with
    | nil => rfl
    | cons c t =>
      rw [List.dropWhile_cons, digit_not_ws (hd c (List.mem_cons_self _ _))]
      simp
  rw [h1]
  have h2 : ds.reverse.dropWhile Char.isWhitespace = ds.reverse := by
    cases hrev : ds.reverse with
    | nil => rfl
    | cons c t =>
      have hc : c ∈ ds := by
        rw [← List.mem_reverse, hrev]
        exact List.mem_cons_self _ _
      rw [List.dropWhile_cons, digit_not_ws (hd c hc)]
      simp
  rw [h2, List.reverse_reverse]

theorem pyInt_digits {ds : List Char} (hne : ds ≠ []) (hd : ∀ c ∈ ds, c.isDigit = true) :
    pyInt ds = some ((digitsVal ds : Int)) := by
  unfold pyInt
  rw [trimWs_of_digits hd]
  cases ds with
  | nil => exact absurd rfl hne
  | cons c t =>
    have hc := hd c (List.mem_cons_self _ _)
    simp only [pyIntCore]
    rw [if_neg (digit_ne_of_not_digit hc (by decide : ('+' : Char).isDigit = false))]
    rw [if_neg (digit_ne_of_not_digit hc (by decide : ('-' : Char).isDigit = false))]
    rw [if_pos (List.all_eq_true.mpr hd)]

theorem extractFromStem_two (stem : List Char) (A : List (List Char)) (y : List Char)
    (hsplit : splitChar '_' stem = A ++ ["page".data, y]) (hA : A ≠ []) :
    extractFromStem stem = pyInt y := by
  have hlenA : 1 ≤ A.length := by
    cases A with
    | nil => exact absurd rfl hA
    | cons a t => simp
  simp only [extractFromStem]
  rw [hsplit]
  have hlen : (A ++ ["page".data, y]).length = A.length + 2 := by simp
  rw [hlen]
  have h2 : A.length + 2 - 2 = A.length := by omega
  have h1 : A.length + 2 - 1 = A.length + 1 := by omega
  rw [h2, h1, getD_append_self, getD_append_add]
  rw [if_pos ⟨by omega, rfl⟩]
  rfl

theorem extractFromStem_three (stem : List Char) (A : List (List Char)) (y z : List Char)
    (hsplit : splitChar '_' stem = A ++ ["page".data, y, z]) (hA : A ≠ [])
    (hy : y ≠ "page".data) :
    extractFromStem stem = (if z = "result".data then pyInt y else none) := by
  have hlenA : 1 ≤ A.length := by
    cases A with
    | nil => exact absurd rfl hA
    | cons a t => simp
  simp only [extractFromStem]
  rw [hsplit]
  have hlen : (A ++ ["page".data, y, z]).length = A.length + 3 := by simp
  rw [hlen]
  have h3 : A.length + 3 - 3 = A.length := by omega
  have h2 : A.length + 3 - 2 = A.length + 1 := by omega
  have h1 : A.length + 3 - 1 = A.length + 2 := by omega
  rw [h3, h2, h1, getD_append_self, getD_append_add, getD_append_add]
  rw [if_neg (fun h => hy h.2)]
  by_cases hz : z = "result".data
  · rw [if_pos hz]
    rw [if_pos ⟨by omega, rfl, by simpa using hz⟩]
    rfl
  · rw [if_neg hz]
    rw [if_neg (fun h => hz (by simpa using h.2.2))]

theorem extractFromStem_some_shape (stem : List Char) (n : Int)
    (h : extractFromStem stem = some n) :
    (∃ t ds, stem = t ++ ('_' :: ("page".data ++ ('_' :: ds))) ∧ pyInt ds = some n) ∨
      (∃ t ds, stem = t ++ ('_' :: ("page".data ++ ('_' :: (ds ++ ('_' :: "result".data))))) ∧
        pyInt ds = some n) := by
  have hjoin := joinSep_splitChar '_' stem
  simp only [extractFromStem] at h
  set P := splitChar '_' stem with hPdef
  by_cases hc1 : 3 ≤ P.length ∧ P.getD (P.length - 2) [] = "page".data
  · rw [if_pos hc1] at h
    left
    cases hrev : P.reverse with
    | nil =>
      exfalso
      have hP0 : P = [] := by simpa using congrArg List.reverse hrev
      have := hc1.1
      rw [hP0] at this
      simp at this
    | cons y t =>
      cases t with
      | nil =>
        exfalso
        have hP0 : P = [y] := by simpa using congrArg List.reverse hrev
        have := hc1.1
        rw [hP0] at this
        simp at this
      | cons x rest =>
        have hP : P = rest.reverse ++ [x, y] := by simpa using congrArg List.reverse hrev
        have hlen : (rest.reverse ++ [x, y]).length = rest.reverse.length + 2 := by simp
        have hAne : rest.reverse ≠ [] := by
          have h31 := hc1.1
          rw [hP, hlen] at h31
          intro hAeq
          rw [hAeq] at h31
          simp at h31
        have hx : x = "page".data := by
          have h2 := hc1.2
          rw [hP, hlen] at h2
          have e2 : rest.reverse.length + 2 - 2 = rest.reverse.length := by omega
          rw [e2, getD_append_self] at h2
          exact h2
        have hy : pyInt y = some n := by
          rw [hP, hlen] at h
          have e1 : rest.reverse.length + 2 - 1 = rest.reverse.length + 1 := by omega
          rw [e1, getD_append_add] at h
          exact h
        refine ⟨joinSep '_' rest.reverse, y, ?_, hy⟩
        rw [← hjoin, hP, joinSep_append '_' rest.reverse [x, y] hAne (by simp), hx]
        rfl
  · rw [if_neg hc1] at h
    by_cases hc2 : 4 ≤ P.length ∧ P.getD (P.length - 3) [] = "page".data ∧
        P.getD (P.length - 1) [] = "result".data
    · rw [if_pos hc2] at h
      right
      cases hrev : P.reverse with
      | nil =>
        exfalso
        have hP0 : P = [] := by simpa using congrArg List.reverse hrev
        have := hc2.1
        rw [hP0] at this
        simp at this
      | cons z t =>
        cases t with
        | nil =>
          exfalso
          have hP0 : P = [z] := by simpa using congrArg List.reverse hrev
          have := hc2.1
          rw [hP0] at this
          simp at this
        | cons y t2 =>
          cases t2 with
          | nil =>
            exfalso
            have hP0 : P = [y, z] := by simpa using congrArg List.reverse hrev
            have := hc2.1
            rw [hP0] at this
            simp at this
          | cons x rest =>
            have hP : P = rest.reverse ++ [x, y, z] := by
              simpa using congrArg List.reverse hrev
            have hlen : (rest.reverse ++ [x, y, z]).length = rest.reverse.length + 3 := by
              simp
            have hAne : rest.reverse ≠ [] := by
              have h41 := hc2.1
              rw [hP, hlen] at h41
              intro hAeq
              rw [hAeq] at h41
              simp at h41
            have hx : x = "page".data := by
              have h2 := hc2.2.1
              rw [hP, hlen] at h2
              have e3 : rest.reverse.length + 3 - 3 = rest.reverse.length := by omega
              rw [e3, getD_append_self] at h2
              exact h2
            have hz : z = "result".data := by
              have h2 := hc2.2.2
              rw [hP, hlen] at h2
              have e1 : rest.reverse.length + 3 - 1 = rest.reverse.length + 2 := by omega
              rw [e1, getD_append_add] at h2
              exact h2
            have hy : pyInt y = some n := by
              rw [hP, hlen] at h
              have e2 : rest.reverse.length + 3 - 2 = rest.reverse.length + 1 := by omega
              rw [e2, getD_append_add] at h
              exact h
            refine ⟨joinSep '_' rest.reverse, y, ?_, hy⟩
            rw [← hjoin, hP, joinSep_append '_' rest.reverse [x, y, z] hAne (by simp), hx, hz]
            rfl
    · rw [if_neg hc2] at h
      cases h

/-- C10. The page-number estimator, on stems: for any base fragment and
any non-empty run of decimal digits `ds`, a stem ending in
`"_page_" ++ ds` yields the digits' value, a stem ending in
`"_page_" ++ ds ++ "_result"` yields the digits' value, and a stem
ending in `"_page_" ++ ds ++ "_results"` — the naming the page processor
actually writes (`f"{base}_page_{n}_results.json"`) — yields `none`.
Conversely (the "only" direction) any stem on which the estimator
returns `some n` ends in `"_page_" ++ ds` or `"_page_" ++ ds ++
"_result"` for some fragment `ds` with `int(ds) = n`.  On full
references of the page processor's shape the estimator returns `none`,
so such a reference's error record carries a null estimated page number
and a missing page number on its validly loaded page falls through to
the sequential counter. -/
theorem page_number_naming_spec :
    (∀ (base ds : List Char), ds ≠ [] → (∀ c ∈ ds, c.isDigit = true) →
      extractFromStem (base ++ ('_' :: ("page".data ++ ('_' :: ds))))
        = some ((digitsVal ds : Int))) ∧
      (∀ (base ds : List Char), ds ≠ [] → (∀ c ∈ ds, c.isDigit = true) →
        extractFromStem
            (base ++ ('_' :: ("page".data ++ ('_' :: (ds ++ ('_' :: "result".data))))))
          = some ((digitsVal ds : Int))) ∧
      (∀ (base ds : List Char), ds ≠ [] → (∀ c ∈ ds, c.isDigit = true) →
        extractFromStem
            (base ++ ('_' :: ("page".data ++ ('_' :: (ds ++ ('_' :: "results".data))))))
          = none) ∧
      (∀ (stem : List Char) (n : Int), extractFromStem stem = some n →
        (∃ t ds, stem = t ++ ('_' :: ("page".data ++ ('_' :: ds))) ∧ pyInt ds = some n) ∨
          (∃ t ds,
            stem = t ++ ('_' :: ("page".data ++ ('_' :: (ds ++ ('_' :: "result".data))))) ∧
            pyInt ds = some n)) ∧
      extract_page_number_from_path "intermediate-page-results/u1/mydoc_page_3_results.json"
        = none ∧
      extract_page_number_from_path "intermediate-page-results/u1/mydoc_page_3_result.json"
        = some 3 ∧
      (combineLoop "B"
          [⟨"s3://B/intermediate-page-results/u1/mydoc_page_3_results.json",
            .fetchErr "boom"⟩]).errors
        = [⟨"s3://B/intermediate-page-results/u1/mydoc_page_3_results.json",
            "Failed to load/process result from s3://B/intermediate-page-results/u1/mydoc_page_3_results.json: boom",
            none⟩] ∧
      (combineLoop "B"
          [⟨"s3://B/intermediate-page-results/u1/mydoc_page_3_results.json",
            .dict ⟨none, true, .str "A", true, some "markdown", .null⟩⟩]).pages
        = [⟨1, "markdown", .str "A", .null⟩] := by
  have hPageNoUs : ∀ c ∈ "page".data, c ≠ '_' := by decide
  have hResultNoUs : ∀ c ∈ "result".data, c ≠ '_' := by decide
  have hResultsNoUs : ∀ c ∈ "results".data, c ≠ '_' := by decide
  refine ⟨?_, ?_, ?_, extractFromStem_some_shape, by decide, by decide, by decide, by decide⟩
  · intro base ds hne hd
    have hnous : ∀ c ∈ ds, c ≠ '_' :=
      fun c hc => digit_ne_of_not_digit (hd c hc) (by decide)
    have hsplit : splitChar '_' (base ++ ('_' :: ("page".data ++ ('_' :: ds))))
        = splitChar '_' base ++ ["page".data, ds] := by
      rw [splitChar_append, splitChar_append, splitChar_of_no_sep _ _ hPageNoUs,
        splitChar_of_no_sep _ _ hnous]
      simp
    exact (extractFromStem_two _ _ _ hsplit (splitChar_ne_nil _ _)).trans (pyInt_digits hne hd)
  · intro base ds hne hd
    have hnous : ∀ c ∈ ds, c ≠ '_' :=
      fun c hc => digit_ne_of_not_digit (hd c hc) (by decide)
    have hy : ds ≠ "page".data := by
      intro he
      have hmem : ('p' : Char) ∈ ds := by
        rw [he]
        decide
      exact absurd (hd _ hmem) (by decide)
    have hsplit : splitChar '_'
          (base ++ ('_' :: ("page".data ++ ('_' :: (ds ++ ('_' :: "result".data))))))
        = splitChar '_' base ++ ["page".data, ds, "result".data] := by
      rw [splitChar_append, splitChar_append, splitChar_append,
        splitChar_of_no_sep _ _ hPageNoUs, splitChar_of_no_sep _ _ hnous,
        splitChar_of_no_sep _ _ hResultNoUs]
      simp
    rw [extractFromStem_three _ _ _ _ hsplit (splitChar_ne_nil _ _) hy, if_pos rfl]
    exact pyInt_digits hne hd
  · intro base ds hne hd
    have hnous : ∀ c ∈ ds, c ≠ '_' :=
      fun c hc => digit_ne_of_not_digit (hd c hc) (by decide)
    have hy : ds ≠ "page".data := by
      intro he
      have hmem : ('p' : Char) ∈ ds := by
        rw [he]
        decide
      exact absurd (hd _ hmem) (by decide)
    have hsplit : splitChar '_'
          (base ++ ('_' :: ("page".data ++ ('_' :: (ds ++ ('_' :: "results".data))))))
        = splitChar '_' base ++ ["page".data, ds, "results".data] := by
      rw [splitChar_append, splitChar_append, splitChar_append,
        splitChar_of_no_sep _ _ hPageNoUs, splitChar_of_no_sep _ _ hnous,
        splitChar_of_no_sep _ _ hResultsNoUs]
      simp
    rw [extractFromStem_three _ _ _ _ hsplit (splitChar_ne_nil _ _) hy, if_neg (by decide)]

theorem page_number_naming_spec_witness :
    extractFromStem ("mydoc".data ++ ('_' :: ("page".data ++ ('_' :: "3".data)))) = some 3 ∧
      extractFromStem
          ("mydoc".data ++ ('_' :: ("page".data ++ ('_' :: ("12".data ++ ('_' :: "result".data))))))
        = some 12 ∧
      extractFromStem
          ("mydoc".data ++ ('_' :: ("page".data ++ ('_' :: ("3".data ++ ('_' :: "results".data))))))
        = none := by
  refine ⟨?_, ?_, ?_⟩
  · exact (page_number_naming_spec.1 "mydoc".data "3".data (by decide) (by decide)).trans
      (by decide)
  · exact (page_number_naming_spec.2.1 "mydoc".data "12".data (by decide) (by decide)).trans
      (by decide)
  · exact page_number_naming_spec.2.2.1 "mydoc".data "3".data (by decide) (by decide)
